import Mathlib

/-!
Verification of the BUU timetable scraper/API (`ts_api.py`).

This file shallowly embeds the pure algorithmic core of the program:
the room-enrichment function `get_room_details`, the time parser
`parse_time`, the legend/grid table post-processing and the
reconciliation-and-dedup engine inside `extract_student_info`, the
persistence steps of the `/timetable` and `/save-line-token` endpoints,
and the daily-digest class collection and sort of `/daily-schedule-all`.

External effects are made explicit parameters:
* the static-assets directory is a list `files` of existing file names
  (`os.path.exists` probes);
* the server base URL is a parameter `serverURL`;
* the browser page is a `PageModel` value recording which markers are
  present and the raw texts the locators would return;
* the database is a list of user records, `datetime.now()` a `Nat`.

Python string operations are re-implemented structurally over `List Char`
(`String.data`) so that every definition evaluates by `decide`.  They
model CPython semantics for the ASCII inputs the program manipulates
(`str.strip`, `str.upper`, `str.split`, `str.replace`, substring `in`).
-/

namespace TsApi

/-! ### Python string primitives -/

/-- Whitespace stripped by Python `str.strip()` (ASCII part). -/
def pyIsSpace (c : Char) : Bool :=
  c = ' ' || c = '\t' || c = '\n' || c = '\r' || c = '\x0b' || c = '\x0c'

/-- `str.strip()` on the underlying character list. -/
def trimChars (l : List Char) : List Char :=
  ((l.dropWhile pyIsSpace).reverse.dropWhile pyIsSpace).reverse

/-- Python `s.strip()`. -/
def pyStrip (s : String) : String := ⟨trimChars s.data⟩

/-- Helper for `pySplit`: split a character list at every separator. -/
def splitCharsAux (sep : Char) : List Char → List Char → List (List Char)
  | [], cur => [cur.reverse]
  | c :: rest, cur =>
    if c = sep then cur.reverse :: splitCharsAux sep rest []
    else splitCharsAux sep rest (c :: cur)

/-- Python `s.split(sep)` for a one-character separator
(`''.split(sep) = ['']`, empty pieces are kept). -/
def pySplit (s : String) (sep : Char) : List String :=
  (splitCharsAux sep s.data []).map (fun l => ⟨l⟩)

/-- Python `s.replace(a, b)` for one-character `a`, `b`. -/
def replChar (a b : Char) (s : String) : String :=
  ⟨s.data.map (fun c => if c = a then b else c)⟩

/-- ASCII uppercasing of one character (Python `str.upper` on the
ASCII room codes the program handles). -/
def asciiUpperChar (c : Char) : Char :=
  if 'a' ≤ c && c ≤ 'z' then Char.ofNat (c.toNat - 32) else c

/-- Python `s.upper()` (ASCII). -/
def pyUpper (s : String) : String := ⟨s.data.map asciiUpperChar⟩

/-- Substring test on character lists, Python `sub in s`. -/
def listIsInfix (pat : List Char) : List Char → Bool
  | [] => pat.isEmpty
  | c :: rest => pat.isPrefixOf (c :: rest) || listIsInfix pat rest

/-- Python `sub in s`. -/
def pyContains (s sub : String) : Bool := listIsInfix sub.data s.data

/-! ### Room & image logic (`get_room_details`, ts_api.py lines 86-110)

`files` is the set of file names present in the `static/maps` directory;
`serverURL` is `SERVER_URL`.  The source first strips the room code,
splits it at `-`, and uppercases/strips the first part; the
`if len(parts) > 0 else room_code` branch of the source is modelled by
`headD room_code` (Python `split` never returns an empty list, so the
default is never used, exactly as in the source). -/

/-- The probe order of `valid_extensions` in the source. -/
def valid_extensions : List String := [".jpg", ".png", ".jpeg"]

/-- `get_room_details(room_code)`, with the filesystem and server URL
as explicit parameters. -/
def get_room_details (serverURL : String) (files : List String)
    (room_code : String) : String × String :=
  let room_code := pyStrip room_code
  let parts := pySplit room_code '-'
  let pfx := pyStrip (pyUpper (parts.headD room_code))
  let building_name :=
    if pfx = "S" then "ตึก 100 ปี (สมเด็จพระเทพฯ)"
    else if pfx = "P" then "อาคารวิทยาศาสตร์ (P)"
    else if pfx = "L" then "อาคารเรียนรวม (L)"
    else if pfx = "ARR" ∨ pyContains (pyUpper room_code) "ONLINE" = true then
      "เรียนออนไลน์จ้า"
    else if pfx = "QS2" then "อาคารภูมิราชนครินทร์ (QS2)"
    else if pfx = "KB" then "อาคารเคบี (KB)"
    else if pfx = "SC" then "อาคารวิทยาศาสตร์ (SC)"
    else if pfx = "EN" then "คณะวิศวกรรมศาสตร์"
    else "อาคาร " ++ pfx
  let full_image_url :=
    match valid_extensions.find? (fun ext => files.contains (room_code ++ ext)) with
    | some ext => serverURL ++ "/static/maps/" ++ room_code ++ ext
    | none => ""
  (building_name, full_image_url)

/-! ### `parse_time` (ts_api.py lines 117-119)

`datetime.strptime(time_str, "%H:%M")` succeeds exactly when the whole
string matches the CPython `_strptime` regex
`(2[0-3]|[0-1]\d|\d) : ([0-5]\d|\d)` (1-2 digit hour 0-23, literal
colon, 1-2 digit minute 0-59, nothing left over).  On success the
program compares `datetime` values that share the default date
1900-01-01, i.e. it compares minutes-of-day; on any failure it
returns `datetime.max`, which is strictly above every parsed value and
identical across failures.  We model a parsed value as minutes of the
day and `datetime.max` as `timeSentinel`. -/

/-- Model of `datetime.max`: one fixed value strictly above every
parsed minutes-of-day value. -/
def timeSentinel : Nat := 1000000000

/-- An ASCII digit `0`-`9` (regex `\d`; codepoints 48-57). -/
def isDigitChar (c : Char) : Bool := 48 ≤ c.toNat && c.toNat ≤ 57

def digitVal (c : Char) : Nat := c.toNat - 48

/-- The minutes part `([0-5]\d|\d)`, which must consume the rest of
the string (`[0-5]` is codepoints 48-53). -/
def parseMinutes : List Char → Option Nat
  | [m1] => if isDigitChar m1 then some (digitVal m1) else none
  | [m1, m2] =>
    if (48 ≤ m1.toNat && m1.toNat ≤ 53) && isDigitChar m2 then
      some (digitVal m1 * 10 + digitVal m2)
    else none
  | _ => none

/-- The two-digit hour alternatives `2[0-3]|[0-1]\d`
(`[0-3]` is codepoints 48-51). -/
def parseHour2 (c1 c2 : Char) : Option Nat :=
  if c1 = '2' && (48 ≤ c2.toNat && c2.toNat ≤ 51) then some (20 + digitVal c2)
  else if (c1 = '0' || c1 = '1') && isDigitChar c2 then
    some (digitVal c1 * 10 + digitVal c2)
  else none

/-- The whole `%H:%M` pattern.  A second character `:` forces the
one-digit-hour alternative; otherwise only the two-digit-hour
alternative can match (the regex backtracking collapses to this case
split because after a one-digit hour the next character must be `:`). -/
def parseHM (l : List Char) : Option Nat :=
  match l with
  | c1 :: c2 :: rest =>
    if c2 = ':' then
      if isDigitChar c1 then (parseMinutes rest).map (fun m => digitVal c1 * 60 + m)
      else none
    else
      match rest with
      | c3 :: ms =>
        if c3 = ':' then
          (parseHour2 c1 c2).bind (fun h => (parseMinutes ms).map (fun m => h * 60 + m))
        else none
      | [] => none
  | _ => none

/-- `parse_time(time_str)`: minutes of the day, or `timeSentinel`
(`datetime.max`) when `strptime` raises. -/
def parse_time (s : String) : Nat :=
  match parseHM s.data with
  | some t => t
  | none => timeSentinel

/-! ### Legend table (`myTable_raw`, ts_api.py lines 183-193)

A legend row is the list of its cells' texts: cell 0 as read by
`safe_text` before stripping, cell 1 as the text of the name blob with
the `<br>` separators already rendered as newlines (the
`inner_html().replace("<br>", "\n")` + `innerText` step happens in the
browser).  `myTable_raw` is a Python dict keyed by course code; we model
it as an association list with unique keys where re-inserting a key
overwrites its value in place, exactly the CPython dict behaviour. -/

structure LegendEntry where
  code : String
  name_en : String
  name_th : String
deriving DecidableEq, Repr

/-- CPython dict assignment `m[k] = v`: overwrite in place if the key
exists, else append. -/
def dictInsert (m : List (String × LegendEntry)) (k : String) (v : LegendEntry) :
    List (String × LegendEntry) :=
  if m.any (fun p => p.1 == k) then
    m.map (fun p => if p.1 == k then (k, v) else p)
  else m ++ [(k, v)]

/-- CPython dict lookup (`k in m` / `m[k]`). -/
def dictLookup (m : List (String × LegendEntry)) (k : String) : Option LegendEntry :=
  (m.find? (fun p => p.1 == k)).map Prod.snd

/-- The `myTable_raw` loop: skip rows with fewer than two cells, skip
rows whose stripped cell-0 text is empty, split the name blob on
newlines, strip the pieces, drop empty pieces, `lines[0]` is `name_en`
and `lines[1]` is `name_th` with empty-string defaults. -/
def buildLegend (rows : List (List String)) : List (String × LegendEntry) :=
  rows.foldl
    (fun m cells =>
      if cells.length ≥ 2 then
        let code := pyStrip (cells.headD "")
        if code ≠ "" then
          let lines := ((pySplit (cells.getD 1 "") '\n').map pyStrip).filter
            (fun x => x != "")
          dictInsert m code ⟨code, lines.getD 0 "", lines.getD 1 ""⟩
        else m
      else m)
    []

/-! ### Grid table (`mainTable_raw`, ts_api.py lines 195-211)

A grid row carries the text of its day cell (cell 0) and the texts of
its remaining cells 1..n, each with `<br>` already rendered as comma by
the `inner_html().replace("<br>", ",")` + `innerText` step.  Rows whose
stripped day label is empty are skipped entirely; a cell's text is
normalised (newlines to commas), split on commas, pieces stripped and
empty pieces dropped; only non-empty token lists are kept. -/

structure GridRowIn where
  day : String
  cells : List String
deriving DecidableEq, Repr

/-- `parts = [x.strip() for x in text.replace("\n", ",").split(",") if x.strip()]`. -/
def splitCell (text : String) : List String :=
  ((pySplit (replChar '\n' ',' text) ',').map pyStrip).filter (fun x => x != "")

/-- The `mainTable_raw` loop: `(day, col_data)` pairs in row order. -/
def buildMainTable (rows : List GridRowIn) : List (String × List (List String)) :=
  rows.foldl
    (fun acc r =>
      let day := pyStrip r.day
      if day ≠ "" then
        acc ++ [(day, (r.cells.map splitCell).filter (fun parts => !parts.isEmpty))]
      else acc)
    []

/-! ### Reconciliation & dedup (`finalTable`, ts_api.py lines 213-251) -/

/-- One decoded grid entry, before the legend join. -/
structure Entry where
  day : String
  code : String
  room : String
  time : String
deriving DecidableEq, Repr

/-- `col[3].replace("(", "").replace(")", "")`: every parenthesis
character is removed. -/
def stripParens (s : String) : String :=
  ⟨s.data.filter (fun c => c ≠ '(' && c ≠ ')')⟩

/-- The positional decoding of one token list (lines 219-225):
skip empty lists; `code = col[0]`; `room = col[2]` if present else
`"-"`; `time = col[3]` with parentheses removed if present else `"-"`.
`col[1]` is not read. -/
def decodeCol (day : String) (col : List String) : Option Entry :=
  if col.length < 1 then none
  else
    some ⟨day, col.headD "",
          if col.length > 2 then col.getD 2 "" else "-",
          if col.length > 3 then stripParens (col.getD 3 "") else "-"⟩

/-- All decoded entries of a scrape, in day-row-then-column scan order. -/
def gridEntries (mainTable : List (String × List (List String))) : List Entry :=
  mainTable.flatMap (fun row => row.2.filterMap (decodeCol row.1))

/-- `key = f"{code}|{day}|{time_val}"`. -/
def keyOf (code day time : String) : String :=
  code ++ "|" ++ day ++ "|" ++ time

def keyOfEntry (e : Entry) : String := keyOf e.code e.day e.time

/-- One row of `finalTable` (lines 232-237). -/
structure FinalRow where
  day : String
  code : String
  name_en : String
  name_th : String
  room : String
  time : String
deriving DecidableEq, Repr

def keyOfRow (r : FinalRow) : String := keyOf r.code r.day r.time

/-- The dedup-and-join loop over the decoded entries (lines 215-237).
The key is added to `seen` before the legend lookup, so an entry whose
code is missing from the legend still consumes its key.  The Python
`seen` set is modelled as the list of keys added so far (only
membership is used). -/
def matchLoop (legend : List (String × LegendEntry)) :
    List Entry → List String → List FinalRow
  | [], _ => []
  | e :: rest, seen =>
    let key := keyOfEntry e
    if key ∈ seen then matchLoop legend rest seen
    else
      match dictLookup legend e.code with
      | some L => ⟨e.day, e.code, L.name_en, L.name_th, e.room, e.time⟩ ::
          matchLoop legend rest (key :: seen)
      | none => matchLoop legend rest (key :: seen)

/-- Key insertion order of a CPython dict built by repeated insertion:
first-occurrence order. `seen` holds the keys already inserted. -/
def firstOccAux (seen : List String) : List String → List String
  | [] => []
  | c :: rest =>
    if c ∈ seen then firstOccAux seen rest
    else c :: firstOccAux (c :: seen) rest

structure SchedItem where
  day : String
  time : String
  room : String
deriving DecidableEq, Repr

structure Subject where
  code : String
  name_en : String
  name_th : String
  schedules : List SchedItem
deriving DecidableEq, Repr

/-- The grouping step (lines 239-251): `grouped = defaultdict(list)`
filled in `finalTable` order, then one result entry per dict key in
insertion order, names looked up again in `myTable_raw`.  Every code in
`finalTable` is in the legend (the join just checked it), so the
lookup's `getD` defaults are never reached. -/
def groupResult (legend : List (String × LegendEntry)) (finalTable : List FinalRow) :
    List Subject :=
  (firstOccAux [] (finalTable.map (fun r => r.code))).map
    (fun c =>
      ⟨c,
       ((dictLookup legend c).map (fun L => L.name_en)).getD "",
       ((dictLookup legend c).map (fun L => L.name_th)).getD "",
       (finalTable.filter (fun r => r.code == c)).map (fun r => ⟨r.day, r.time, r.room⟩)⟩)

/-- The reconciliation operation `(LegendMap, GridRows) → Course[]`:
dedup (with a `seen` set created empty at this invocation) followed by
the legend join and the grouping. -/
def reconcile (legend : List (String × LegendEntry))
    (mainTable : List (String × List (List String))) : List Subject :=
  groupResult legend (matchLoop legend (gridEntries mainTable) [])

/-! ### The scrape (`extract_student_info`, ts_api.py lines 122-260)

The browser session is modelled by the observable behaviour of the
page: whether some step of navigation/parsing raises (`raises`; e.g.
the un-guarded `wait_for_selector` on the login field, or any locator
error), whether the success marker `ตารางเรียน/สอบ` is present after
submitting (`menuPresent`), whether the explicit rejection marker
`รหัสผ่านไม่ถูกต้อง` is present (`wrongPwdPresent` — the source only
chooses a log line by it), whether the `#myTable` wait times out
(`tableTimeout` — the source catches the timeout and proceeds), and the
texts the two table locators produce. -/

structure PageModel where
  raises : Bool
  menuPresent : Bool
  wrongPwdPresent : Bool
  tableTimeout : Bool
  legendRows : List (List String)
  gridRows : List GridRowIn
deriving DecidableEq, Repr

inductive ScrapeResult where
  /-- The list returned to the caller (line 172 returns `[]`, line 254
  returns the reconciled subjects). -/
  | courses : List Subject → ScrapeResult
  /-- An exception re-raised by line 258 (after the `finally` close). -/
  | exn : ScrapeResult
deriving DecidableEq, Repr

/-- `extract_student_info(username, password)` as a function of the
page it observes.  When the success marker is absent the function
returns the plain empty list (line 172) whether or not the
wrong-password marker was seen; `wrongPwdPresent` and `tableTimeout`
affect nothing but log output. -/
def extract_student_info (page : PageModel) : ScrapeResult :=
  if page.raises then .exn
  else if !page.menuPresent then .courses []
  else .courses (reconcile (buildLegend page.legendRows) (buildMainTable page.gridRows))

/-! ### The API layer (ts_api.py lines 273-361) -/

structure ESchedItem where
  day : String
  time : String
  room : String
  building : String
  map_image : String
deriving DecidableEq, Repr

structure ESubject where
  code : String
  name_en : String
  name_th : String
  schedules : List ESchedItem
deriving DecidableEq, Repr

/-- The enrichment loop of `api_login` (lines 281-294). -/
def enrich (serverURL : String) (files : List String) (data : List Subject) :
    List ESubject :=
  data.map (fun subject =>
    ⟨subject.code, subject.name_en, subject.name_th,
     subject.schedules.map (fun s =>
       let bi := get_room_details serverURL files s.room
       ⟨s.day, s.time, s.room, bi.1, bi.2⟩)⟩)

/-- One persisted row of the `users` table.  `schedule_json` is stored
as the JSON of the enriched schedule; since `json.dumps` is injective
on this data we store the value itself.  `last_updated` is a `Nat`
timestamp. -/
structure UserRec where
  username : String
  line_token : Option String
  schedule : List ESubject
  last_updated : Nat
deriving DecidableEq, Repr

/-- `db.query(UserDB).filter(UserDB.username == uname).first()`.
`username` is the primary key, so at most one row matches. -/
def getUser (db : List UserRec) (uname : String) : Option UserRec :=
  db.find? (fun u => u.username == uname)

/-- The persistence step of `api_login` (lines 297-304): fetch-or-add
the row, then overwrite `schedule_json` and `last_updated` and commit.
`line_token` is not touched; a newly added row has no token. -/
def upsertSchedule (db : List UserRec) (uname : String) (sched : List ESubject)
    (now : Nat) : List UserRec :=
  if db.any (fun u => u.username == uname) then
    db.map (fun u =>
      if u.username == uname then ⟨u.username, u.line_token, sched, now⟩ else u)
  else db ++ [⟨uname, none, sched, now⟩]

inductive ApiResp where
  /-- `{"status": "success", "data": enriched_schedule}`. -/
  | success : List ESubject → ApiResp
  /-- `HTTPException(status_code=500)` from the catch-all handler. -/
  | error : ApiResp
deriving DecidableEq, Repr

/-- The `/timetable` endpoint `api_login` (lines 273-311): scrape,
enrich, persist, answer.  When the scrape raises, the handler re-raises
as a 500 before any database write. -/
def api_login (serverURL : String) (files : List String) (db : List UserRec)
    (uname : String) (page : PageModel) (now : Nat) : List UserRec × ApiResp :=
  match extract_student_info page with
  | .exn => (db, .error)
  | .courses data =>
    let enriched := enrich serverURL files data
    (upsertSchedule db uname enriched now, .success enriched)

/-- The `/save-line-token` endpoint `api_save_token` (lines 313-327):
fetch-or-add the row, set `line_token`, commit.  Schedule and
`last_updated` are not touched on an existing row; a newly added row
gets the column defaults (`schedule_json="[]"`, `last_updated=now`). -/
def api_save_token (db : List UserRec) (uname : String) (tok : String) (now : Nat) :
    List UserRec :=
  if db.any (fun u => u.username == uname) then
    db.map (fun u =>
      if u.username == uname then ⟨u.username, some tok, u.schedule, u.last_updated⟩
      else u)
  else db ++ [⟨uname, some tok, [], now⟩]

/-! ### The daily digest (`api_n8n`, ts_api.py lines 341-359) -/

structure ClassInfo where
  code : String
  name : String
  time : String
  room : String
  building : String
  map_image : String
deriving DecidableEq, Repr

/-- Collecting one user's classes for the target day (lines 347-355),
subject order then schedule order. -/
def buildClasses (sched : List ESubject) (target_day : String) : List ClassInfo :=
  sched.flatMap (fun subj =>
    (subj.schedules.filter (fun s => s.day == target_day)).map (fun s =>
      ⟨subj.code, subj.name_en, s.time, s.room, s.building, s.map_image⟩))

/-- `classes.sort(key=lambda x: parse_time(x['time']))`: CPython's
stable ascending sort, modelled by the (stable) `List.mergeSort`. -/
def sortClasses (cs : List ClassInfo) : List ClassInfo :=
  cs.mergeSort (fun a b => parse_time a.time ≤ parse_time b.time)

/-! ### Specification-side definitions

These two definitions follow the words of the specification (not the
source); they exist only to be compared against the behaviour of the
source-derived definitions. -/

/-- Modelled from the spec: "a parenthesized time range with the
parentheses stripped" — strip one surrounding `(`/`)` pair when both
are present, otherwise leave the string unchanged. -/
def stripSurroundingSpec (s : String) : String :=
  if s.data.head? = some '(' ∧ s.data.getLast? = some ')' ∧ 2 ≤ s.data.length then
    ⟨(s.data.drop 1).dropLast⟩
  else s

/-- Modelled from the spec: a string "exactly in `HH:MM` format" —
two digits, a colon, two digits. -/
def hhmmFormatSpec (s : String) : Bool :=
  match s.data with
  | [h1, h2, ':', m1, m2] =>
    isDigitChar h1 && isDigitChar h2 && isDigitChar m1 && isDigitChar m2
  | _ => false

/-! ### Helper definitions for the proofs -/

/-- A string not containing the `|` character used as the dedup-key
separator. -/
def noPipe (s : String) : Prop := '|' ∉ s.data

instance instDecidableNoPipe : DecidablePred noPipe :=
  fun s => decidable_of_iff ('|' ∉ s.data) Iff.rfl

/-- The legend-join half of the `finalTable` loop body: the row
appended for an entry whose code is found in the legend. -/
def toRow (legend : List (String × LegendEntry)) (e : Entry) : Option FinalRow :=
  (dictLookup legend e.code).map
    (fun L => ⟨e.day, e.code, L.name_en, L.name_th, e.room, e.time⟩)

/-- The dedup half of the `finalTable` loop: keep each entry whose key
has not been seen, recording every unseen key (the source records the
key before the legend lookup). -/
def dedupKeys : List Entry → List String → List Entry
  | [], _ => []
  | e :: rest, seen =>
    if keyOfEntry e ∈ seen then dedupKeys rest seen
    else e :: dedupKeys rest (keyOfEntry e :: seen)

/-- All (course code, session) dedup keys of a reconciled output. -/
def subjectKeys (subs : List Subject) : List String :=
  subs.flatMap (fun sub => sub.schedules.map (fun s => keyOf sub.code s.day s.time))

/-- How many sessions of the output carry a given dedup key. -/
def countSessions (subs : List Subject) (k : String) : Nat :=
  (subjectKeys subs).count k

/-- The prefix computed by `get_room_details`:
`room_code.strip().split('-')[0].upper().strip()`. -/
def roomPrefix (room_code : String) : String :=
  pyStrip (pyUpper ((pySplit (pyStrip room_code) '-').headD (pyStrip room_code)))

/-! ### Concrete fixtures (spec scenarios A/B/C and variations) -/

/-- Scenario A legend: one course `CS101`. -/
def legA : List (String × LegendEntry) := buildLegend [["CS101", "Intro\nเบื้องต้น"]]

/-- Scenario A grid: one Monday cell. -/
def mtA : List (String × List (List String)) :=
  buildMainTable [⟨"จันทร์", ["CS101\nG1\nS-101\n(09:00-12:00)"]⟩]

/-- Scenario B grid: the identical cell tokens in two adjacent columns. -/
def mtB : List (String × List (List String)) :=
  [("จันทร์", [["CS101", "G1", "S-101", "(09:00-12:00)"],
               ["CS101", "G1", "S-101", "(09:00-12:00)"]])]

/-- Scenario C grid: a code `XX999` absent from the legend next to a
known code. -/
def mtC : List (String × List (List String)) :=
  [("จันทร์", [["XX999", "G1", "S-101", "(09:00-12:00)"],
               ["CS101", "G1", "S-101", "(10:00-11:00)"]])]

/-- A legend with two courses `X` and `Y`, for the key-collision grid. -/
def legP : List (String × LegendEntry) :=
  [("X", ⟨"X", "ex en", "ex th"⟩), ("Y", ⟨"Y", "wy en", "wy th"⟩)]

/-- A grid whose first entry has the pipe-containing code `X|d1`, whose
computed dedup key collides with the key of the first `X` entry. -/
def mtP : List (String × List (List String)) :=
  [("x", [["X|d1", "g", "r", "(t)"]]),
   ("d1", [["X", "g", "r", "(x|t)"], ["Y", "g", "r", "(t2)"], ["X", "g", "r", "(t3)"]])]

/-- A page showing the explicit wrong-credentials marker (and hence no
success-menu marker). -/
def pageWrong : PageModel := ⟨false, false, true, false, [], []⟩

/-- A page where login succeeded but the timetable is empty. -/
def pageEmptyOk : PageModel := ⟨false, true, false, false, [], []⟩

/-- A page where login succeeded and the tables carry Scenario A. -/
def pageOkA : PageModel :=
  ⟨false, true, false, false, [["CS101", "Intro\nเบื้องต้น"]],
   [⟨"จันทร์", ["CS101\nG1\nS-101\n(09:00-12:00)"]⟩]⟩

/-- A stored enriched subject, used as pre-existing database content. -/
def subj1 : ESubject :=
  ⟨"CS101", "Intro", "เบื้องต้น", [⟨"จันทร์", "09:00-12:00", "S-101", "b", ""⟩]⟩

/-- A database holding one user `u` with a token and a stored schedule. -/
def db0 : List UserRec := [⟨"u", some "tok", [subj1], 5⟩]

/-! ### Lemmas about the dedup key -/

lemma data_keyOf (c d t : String) :
    (keyOf c d t).data = c.data ++ '|' :: (d.data ++ '|' :: t.data) := by
  have hp : ("|" : String).data = ['|'] := rfl
  simp [keyOf, hp]

lemma pipeFree_append_inj :
    ∀ (a b r r' : List Char), '|' ∉ a → '|' ∉ b →
      a ++ '|' :: r = b ++ '|' :: r' → a = b ∧ r = r' := by
  intro a
  induction a with
  | nil =>
    intro b r r' _ hb h
    cases b with
    | nil => simpa using h
    | cons x xs =>
      simp only [List.nil_append, List.cons_append, List.cons.injEq] at h
      exact absurd (by rw [h.1]; exact List.mem_cons_self x xs) hb
  | cons x xs ih =>
    intro b r r' ha hb h
    cases b with
    | nil =>
      simp only [List.nil_append, List.cons_append, List.cons.injEq] at h
      exact absurd (by rw [← h.1]; exact List.mem_cons_self x xs) ha
    | cons y ys =>
      simp only [List.cons_append, List.cons.injEq] at h
      obtain ⟨hxy, htl⟩ := h
      have ha' : '|' ∉ xs := fun hm => ha (List.mem_cons_of_mem _ hm)
      have hb' : '|' ∉ ys := fun hm => hb (List.mem_cons_of_mem _ hm)
      obtain ⟨h1, h2⟩ := ih ys r r' ha' hb' htl
      exact ⟨by rw [hxy, h1], h2⟩

/-- Entries with pipe-free codes that share a dedup key share a code. -/
lemma keyOf_code_eq {c c' d d' t t' : String} (hc : noPipe c) (hc' : noPipe c')
    (h : keyOf c d t = keyOf c' d' t') : c = c' := by
  have hd := congrArg String.data h
  rw [data_keyOf, data_keyOf] at hd
  exact String.ext (pipeFree_append_inj c.data c'.data _ _ hc hc' hd).1

/-! ### Factoring the `finalTable` loop -/

lemma matchLoop_eq_filterMap (legend : List (String × LegendEntry)) :
    ∀ entries seen,
      matchLoop legend entries seen = (dedupKeys entries seen).filterMap (toRow legend) := by
  intro entries
  induction entries with
  | nil => intro seen; rfl
  | cons e rest ih =>
    intro seen
    by_cases hk : keyOfEntry e ∈ seen
    · simp only [matchLoop, dedupKeys, if_pos hk]
      exact ih seen
    · simp only [matchLoop, dedupKeys, if_neg hk, List.filterMap_cons]
      cases hL : dictLookup legend e.code with
      | some L => simp [toRow, hL, ih]
      | none => simp [toRow, hL, ih]

lemma dedupKeys_key_not_seen :
    ∀ entries seen, ∀ e ∈ dedupKeys entries seen, keyOfEntry e ∉ seen := by
  intro entries
  induction entries with
  | nil => intro seen e he; cases he
  | cons e' rest ih =>
    intro seen e he
    by_cases hk : keyOfEntry e' ∈ seen
    · rw [dedupKeys, if_pos hk] at he
      exact ih seen e he
    · rw [dedupKeys, if_neg hk] at he
      rcases List.mem_cons.mp he with h | h
      · exact h ▸ hk
      · intro hs
        exact ih _ e h (List.mem_cons_of_mem _ hs)

lemma dedupKeys_keys_nodup :
    ∀ entries seen, ((dedupKeys entries seen).map keyOfEntry).Nodup := by
  intro entries
  induction entries with
  | nil => intro seen; simp [dedupKeys]
  | cons e' rest ih =>
    intro seen
    by_cases hk : keyOfEntry e' ∈ seen
    · rw [dedupKeys, if_pos hk]; exact ih seen
    · rw [dedupKeys, if_neg hk]
      simp only [List.map_cons, List.nodup_cons]
      refine ⟨fun hm => ?_, ih _⟩
      obtain ⟨e, he, hkey⟩ := List.mem_map.mp hm
      exact dedupKeys_key_not_seen rest _ e he (hkey ▸ List.mem_cons_self _ _)

lemma dedupKeys_find_mem :
    ∀ entries seen k e, entries.find? (fun x => keyOfEntry x == k) = some e →
      k ∉ seen → e ∈ dedupKeys entries seen := by
  intro entries
  induction entries with
  | nil => intro seen k e h; cases h
  | cons e' rest ih =>
    intro seen k e hfind hk
    rw [List.find?_cons] at hfind
    by_cases hke : keyOfEntry e' = k
    · have hb : (keyOfEntry e' == k) = true := beq_iff_eq.mpr hke
      rw [hb] at hfind
      have : e' = e := Option.some.inj hfind
      subst this
      rw [dedupKeys, if_neg (hke ▸ hk)]
      exact List.mem_cons_self _ _
    · have hb : (keyOfEntry e' == k) = false := beq_eq_false_iff_ne.mpr hke
      rw [hb] at hfind
      by_cases hseen : keyOfEntry e' ∈ seen
      · rw [dedupKeys, if_pos hseen]
        exact ih seen k e hfind hk
      · rw [dedupKeys, if_neg hseen]
        refine List.mem_cons_of_mem _ (ih _ k e hfind ?_)
        intro hm
        rcases List.mem_cons.mp hm with h | h
        · exact hke h.symm
        · exact hk h

/-! ### Lemmas about the legend join -/

lemma map_keyOfRow_filterMap (legend : List (String × LegendEntry)) :
    ∀ l : List Entry,
      (l.filterMap (toRow legend)).map keyOfRow =
        (l.filter (fun e => (dictLookup legend e.code).isSome)).map keyOfEntry := by
  intro l
  induction l with
  | nil => rfl
  | cons e rest ih =>
    rw [List.filterMap_cons, List.filter_cons]
    cases hL : dictLookup legend e.code with
    | some L => simp [toRow, hL, ih, keyOfRow, keyOfEntry]
    | none => simp [toRow, hL, ih]

lemma map_code_filterMap (legend : List (String × LegendEntry)) :
    ∀ l : List Entry,
      (l.filterMap (toRow legend)).map (fun r => r.code) =
        (l.filter (fun e => (dictLookup legend e.code).isSome)).map (fun e => e.code) := by
  intro l
  induction l with
  | nil => rfl
  | cons e rest ih =>
    rw [List.filterMap_cons, List.filter_cons]
    cases hL : dictLookup legend e.code with
    | some L => simp [toRow, hL, ih]
    | none => simp [toRow, hL, ih]

lemma mem_filterMap_toRow {legend : List (String × LegendEntry)} {l : List Entry}
    {r : FinalRow} (h : r ∈ l.filterMap (toRow legend)) :
    ∃ L, dictLookup legend r.code = some L ∧ r.name_en = L.name_en ∧
      r.name_th = L.name_th := by
  obtain ⟨e, _, he⟩ := List.mem_filterMap.mp h
  unfold toRow at he
  cases hL : dictLookup legend e.code with
  | none => rw [hL] at he; cases he
  | some L =>
    rw [hL] at he
    have hr : r = ⟨e.day, e.code, L.name_en, L.name_th, e.room, e.time⟩ :=
      (Option.some.inj he).symm
    exact ⟨L, by rw [hr]; exact hL, by rw [hr], by rw [hr]⟩

/-! ### Lemmas about first-occurrence order -/

lemma mem_of_mem_firstOccAux :
    ∀ (l : List String) (seen : List String) (x : String),
      x ∈ firstOccAux seen l → x ∈ l := by
  intro l
  induction l with
  | nil => intro seen x hx; cases hx
  | cons c rest ih =>
    intro seen x hx
    by_cases hc : c ∈ seen
    · rw [firstOccAux, if_pos hc] at hx
      exact List.mem_cons_of_mem _ (ih seen x hx)
    · rw [firstOccAux, if_neg hc] at hx
      rcases List.mem_cons.mp hx with h | h
      · exact h ▸ List.mem_cons_self _ _
      · exact List.mem_cons_of_mem _ (ih _ x h)

lemma firstOccAux_not_seen :
    ∀ (l : List String) (seen : List String) (x : String),
      x ∈ firstOccAux seen l → x ∉ seen := by
  intro l
  induction l with
  | nil => intro seen x hx; cases hx
  | cons c rest ih =>
    intro seen x hx
    by_cases hc : c ∈ seen
    · rw [firstOccAux, if_pos hc] at hx
      exact ih seen x hx
    · rw [firstOccAux, if_neg hc] at hx
      rcases List.mem_cons.mp hx with h | h
      · exact h ▸ hc
      · intro hs
        exact ih _ x h (List.mem_cons_of_mem _ hs)

lemma firstOccAux_nodup :
    ∀ (l : List String) (seen : List String), (firstOccAux seen l).Nodup := by
  intro l
  induction l with
  | nil => intro seen; simp [firstOccAux]
  | cons c rest ih =>
    intro seen
    by_cases hc : c ∈ seen
    · rw [firstOccAux, if_pos hc]; exact ih seen
    · rw [firstOccAux, if_neg hc]
      refine List.nodup_cons.mpr ⟨fun hm => ?_, ih _⟩
      exact firstOccAux_not_seen rest _ c hm (List.mem_cons_self _ _)

lemma mem_firstOccAux_of_mem :
    ∀ (l : List String) (seen : List String) (x : String),
      x ∈ l → x ∉ seen → x ∈ firstOccAux seen l := by
  intro l
  induction l with
  | nil => intro seen x hx; cases hx
  | cons c rest ih =>
    intro seen x hx hs
    by_cases hc : c ∈ seen
    · rw [firstOccAux, if_pos hc]
      rcases List.mem_cons.mp hx with h | h
      · exact absurd (h ▸ hc) hs
      · exact ih seen x h hs
    · rw [firstOccAux, if_neg hc]
      rcases List.mem_cons.mp hx with h | h
      · exact h ▸ List.mem_cons_self _ _
      · by_cases hxc : x = c
        · exact hxc ▸ List.mem_cons_self _ _
        · refine List.mem_cons_of_mem _ (ih _ x h ?_)
          intro hm
          rcases List.mem_cons.mp hm with h' | h'
          · exact hxc h'
          · exact hs h'

/-- Two seen-sets that agree on every element satisfying `p` give the
same `p`-filtered first-occurrence list. -/
lemma filter_firstOccAux_congr (p : String → Bool) :
    ∀ (l s₁ s₂ : List String), (∀ x, p x = true → (x ∈ s₁ ↔ x ∈ s₂)) →
      (firstOccAux s₁ l).filter p = (firstOccAux s₂ l).filter p := by
  intro l
  induction l with
  | nil => intro s₁ s₂ _; rfl
  | cons c rest ih =>
    intro s₁ s₂ hagree
    by_cases hp : p c = true
    · by_cases h1 : c ∈ s₁
      · rw [firstOccAux, if_pos h1, firstOccAux, if_pos ((hagree c hp).mp h1)]
        exact ih s₁ s₂ hagree
      · rw [firstOccAux, if_neg h1, firstOccAux,
            if_neg (fun h => h1 ((hagree c hp).mpr h))]
        rw [List.filter_cons, List.filter_cons, hp]
        simp only [if_true]
        refine congrArg _ (ih _ _ ?_)
        intro x hx
        by_cases hxc : x = c
        · subst hxc; simp
        · simp only [List.mem_cons, hxc, false_or]
          exact hagree x hx
    · have hp' : p c = false := Bool.eq_false_iff.mpr hp
      by_cases h1 : c ∈ s₁ <;> by_cases h2 : c ∈ s₂
      · rw [firstOccAux, if_pos h1, firstOccAux, if_pos h2]
        exact ih s₁ s₂ hagree
      · rw [firstOccAux, if_pos h1, firstOccAux, if_neg h2]
        rw [List.filter_cons, hp']
        rw [if_neg (by simp)]
        refine (ih s₁ _ ?_)
        intro x hx
        rw [hagree x hx]
        constructor
        · exact fun h => List.mem_cons_of_mem _ h
        · intro h
          rcases List.mem_cons.mp h with h' | h'
          · subst h'; exact absurd hx (by rw [hp']; simp)
          · exact h'
      · rw [firstOccAux, if_neg h1, firstOccAux, if_pos h2]
        rw [List.filter_cons, hp']
        rw [if_neg (by simp)]
        refine (ih _ s₂ ?_)
        intro x hx
        rw [← hagree x hx]
        constructor
        · intro h
          rcases List.mem_cons.mp h with h' | h'
          · subst h'; exact absurd hx (by rw [hp']; simp)
          · exact h'
        · exact fun h => List.mem_cons_of_mem _ h
      · rw [firstOccAux, if_neg h1, firstOccAux, if_neg h2]
        rw [List.filter_cons, List.filter_cons, hp']
        rw [if_neg (by simp)]
        refine ih _ _ ?_
        intro x hx
        by_cases hxc : x = c
        · subst hxc; exact absurd hx (by rw [hp']; simp)
        · simp only [List.mem_cons, hxc, false_or]
          exact hagree x hx

/-- Filtering commutes with first-occurrence order. -/
lemma firstOccAux_filter (p : String → Bool) :
    ∀ (l seen : List String),
      firstOccAux seen (l.filter p) = (firstOccAux seen l).filter p := by
  intro l
  induction l with
  | nil => intro seen; rfl
  | cons c rest ih =>
    intro seen
    rw [List.filter_cons]
    by_cases hp : p c = true
    · rw [hp]
      simp only [if_true]
      by_cases hc : c ∈ seen
      · rw [firstOccAux, if_pos hc, firstOccAux, if_pos hc]
        exact ih seen
      · rw [firstOccAux, if_neg hc, firstOccAux, if_neg hc]
        rw [List.filter_cons, hp]
        simp only [if_true]
        exact congrArg _ (ih _)
    · have hp' : p c = false := Bool.eq_false_iff.mpr hp
      rw [hp']
      rw [if_neg (by simp)]
      by_cases hc : c ∈ seen
      · rw [firstOccAux, if_pos hc]
        exact ih seen
      · rw [firstOccAux, if_neg hc]
        rw [List.filter_cons, hp']
        rw [if_neg (by simp)]
        rw [ih seen]
        refine filter_firstOccAux_congr p rest seen _ ?_
        intro x hx
        constructor
        · exact fun h => List.mem_cons_of_mem _ h
        · intro h
          rcases List.mem_cons.mp h with h' | h'
          · subst h'; exact absurd hx (by rw [hp']; simp)
          · exact h'

/-! ### The grouping step is a permutation of the flat rows -/

lemma flatMap_filter_perm :
    ∀ (cs : List String) (ft : List FinalRow), cs.Nodup →
      (∀ r ∈ ft, r.code ∈ cs) →
      (cs.flatMap (fun c => ft.filter (fun r => r.code == c))).Perm ft := by
  intro cs
  induction cs with
  | nil =>
    intro ft _ hmem
    cases ft with
    | nil => simp
    | cons r rest => exact absurd (hmem r (List.mem_cons_self _ _)) (by simp)
  | cons c cs ih =>
    intro ft hnd hmem
    obtain ⟨hc_not, hnd'⟩ := List.nodup_cons.mp hnd
    rw [List.flatMap_cons]
    have hcongr : ∀ c' ∈ cs, ft.filter (fun r => r.code == c') =
        (ft.filter (fun r => !(r.code == c))).filter (fun r => r.code == c') := by
      intro c' hc'
      have hne : (c' == c) = false :=
        beq_eq_false_iff_ne.mpr (fun h => hc_not (h ▸ hc'))
      rw [List.filter_filter]
      refine (List.filter_congr ?_).symm
      intro r _
      by_cases h : r.code = c'
      · simp [h, hne]
      · simp [h]
    have hrw : cs.flatMap (fun c' => ft.filter (fun r => r.code == c')) =
        cs.flatMap (fun c' =>
          (ft.filter (fun r => !(r.code == c))).filter (fun r => r.code == c')) := by
      rw [List.flatMap_def, List.flatMap_def]
      exact congrArg List.flatten (List.map_congr_left hcongr)
    rw [hrw]
    have hside : ∀ r ∈ ft.filter (fun r => !(r.code == c)), r.code ∈ cs := by
      intro r hr
      obtain ⟨hrft, hrne⟩ := List.mem_filter.mp hr
      rcases List.mem_cons.mp (hmem r hrft) with h | h
      · rw [h] at hrne; simp at hrne
      · exact h
    have hperm := ih (ft.filter (fun r => !(r.code == c))) hnd' hside
    exact (List.Perm.append_left _ hperm).trans (List.filter_append_perm _ ft)

lemma subjectKeys_groupResult (legend : List (String × LegendEntry))
    (ft : List FinalRow) :
    (subjectKeys (groupResult legend ft)).Perm (ft.map keyOfRow) := by
  have hinner : ∀ c : String,
      ((ft.filter (fun r => r.code == c)).map
          (fun r => (⟨r.day, r.time, r.room⟩ : SchedItem))).map
        (fun s => keyOf c s.day s.time) =
      (ft.filter (fun r => r.code == c)).map keyOfRow := by
    intro c
    rw [List.map_map]
    refine List.map_congr_left ?_
    intro r hr
    have : r.code = c := by simpa using (List.mem_filter.mp hr).2
    simp [keyOfRow, this]
  have h1 : subjectKeys (groupResult legend ft) =
      (firstOccAux [] (ft.map (fun r => r.code))).flatMap
        (fun c => (ft.filter (fun r => r.code == c)).map keyOfRow) := by
    unfold subjectKeys groupResult
    rw [List.flatMap_def, List.map_map, ← List.flatMap_def]
    refine congrArg List.flatten (List.map_congr_left ?_)
    intro c _
    exact hinner c
  rw [h1, ← List.map_flatMap]
  refine List.Perm.map keyOfRow ?_
  refine flatMap_filter_perm _ ft (firstOccAux_nodup _ _) ?_
  intro r hr
  exact mem_firstOccAux_of_mem _ [] _ (List.mem_map_of_mem _ hr) (by simp)

/-! ### Dedup does not disturb first-occurrence code order when codes
are pipe-free -/

lemma firstOcc_code_dedupKeys :
    ∀ (entries : List Entry) (seenKeys seenCodes : List String),
      (∀ e ∈ entries, noPipe e.code) →
      (∀ e ∈ entries, keyOfEntry e ∈ seenKeys → e.code ∈ seenCodes) →
      firstOccAux seenCodes ((dedupKeys entries seenKeys).map (fun e => e.code)) =
        firstOccAux seenCodes (entries.map (fun e => e.code)) := by
  intro entries
  induction entries with
  | nil => intro seenKeys seenCodes _ _; rfl
  | cons e rest ih =>
    intro seenKeys seenCodes hnp hinv
    have hnp_e := hnp e (List.mem_cons_self _ _)
    have hnp' : ∀ x ∈ rest, noPipe x.code :=
      fun x hx => hnp x (List.mem_cons_of_mem _ hx)
    by_cases hk : keyOfEntry e ∈ seenKeys
    · rw [dedupKeys, if_pos hk]
      have hcode : e.code ∈ seenCodes := hinv e (List.mem_cons_self _ _) hk
      rw [List.map_cons, firstOccAux, if_pos hcode]
      exact ih seenKeys seenCodes hnp'
        (fun x hx => hinv x (List.mem_cons_of_mem _ hx))
    · rw [dedupKeys, if_neg hk, List.map_cons, List.map_cons]
      by_cases hc : e.code ∈ seenCodes
      · rw [firstOccAux, if_pos hc, firstOccAux, if_pos hc]
        refine ih (keyOfEntry e :: seenKeys) seenCodes hnp' ?_
        intro x hx hkx
        rcases List.mem_cons.mp hkx with h | h
        · have : x.code = e.code :=
            keyOf_code_eq (hnp' x hx) hnp_e h
          exact this ▸ hc
        · exact hinv x (List.mem_cons_of_mem _ hx) h
      · rw [firstOccAux, if_neg hc, firstOccAux, if_neg hc]
        refine congrArg _ (ih (keyOfEntry e :: seenKeys) (e.code :: seenCodes) hnp' ?_)
        intro x hx hkx
        rcases List.mem_cons.mp hkx with h | h
        · have : x.code = e.code :=
            keyOf_code_eq (hnp' x hx) hnp_e h
          exact this ▸ List.mem_cons_self _ _
        · exact List.mem_cons_of_mem _ (hinv x (List.mem_cons_of_mem _ hx) h)

/-! ### Lemmas about the persistence steps -/

lemma getUser_map_upd (uname : String) (sched : List ESubject) (now : Nat) :
    ∀ (db : List UserRec) (u : UserRec), getUser db uname = some u →
      getUser (db.map (fun v => if v.username == uname then
          (⟨v.username, v.line_token, sched, now⟩ : UserRec) else v)) uname =
        some ⟨uname, u.line_token, sched, now⟩ := by
  intro db
  induction db with
  | nil => intro u h; cases h
  | cons v rest ih =>
    intro u h
    by_cases hv : (v.username == uname) = true
    · have hveq : v.username = uname := beq_iff_eq.mp hv
      simp only [getUser, List.find?_cons, hv] at h
      obtain rfl : v = u := Option.some.inj h
      simp [getUser, List.find?_cons, hv, hveq]
    · have hvf : (v.username == uname) = false := Bool.eq_false_iff.mpr hv
      simp only [getUser, List.find?_cons, hvf] at h
      have hfv : (if v.username == uname then
          (⟨v.username, v.line_token, sched, now⟩ : UserRec) else v) = v := by
        rw [if_neg (by simp [hvf])]
      rw [List.map_cons, hfv]
      show getUser (v :: _) uname = _
      simp only [getUser, List.find?_cons, hvf]
      exact ih u h

lemma getUser_upsertSchedule_some {db : List UserRec} {uname : String} {u : UserRec}
    (h : getUser db uname = some u) (sched : List ESubject) (now : Nat) :
    getUser (upsertSchedule db uname sched now) uname =
      some ⟨uname, u.line_token, sched, now⟩ := by
  have hany : db.any (fun v => v.username == uname) = true := by
    rw [List.any_eq_true]
    refine ⟨u, List.mem_of_find?_eq_some h, ?_⟩
    have := List.find?_some h
    simpa using this
  rw [upsertSchedule, if_pos hany]
  exact getUser_map_upd uname sched now db u h

lemma getUser_upsertSchedule_none {db : List UserRec} {uname : String}
    (h : getUser db uname = none) (sched : List ESubject) (now : Nat) :
    upsertSchedule db uname sched now = db ++ [⟨uname, none, sched, now⟩] ∧
    getUser (upsertSchedule db uname sched now) uname =
      some ⟨uname, none, sched, now⟩ := by
  have hall := List.find?_eq_none.mp h
  have hany : ¬(db.any (fun v => v.username == uname) = true) := by
    rw [List.any_eq_true]
    rintro ⟨x, hx, hpx⟩
    exact hall x hx hpx
  have heq : upsertSchedule db uname sched now = db ++ [⟨uname, none, sched, now⟩] := by
    rw [upsertSchedule, if_neg hany]
  refine ⟨heq, ?_⟩
  rw [heq]
  simp only [getUser, List.find?_append]
  rw [show db.find? (fun v => v.username == uname) = none from h]
  simp [List.find?_cons]

lemma upsertSchedule_frame (db : List UserRec) (uname : String)
    (sched : List ESubject) (now : Nat) :
    ∀ v ∈ db, v.username ≠ uname → v ∈ upsertSchedule db uname sched now := by
  intro v hv hne
  unfold upsertSchedule
  by_cases hany : db.any (fun u => u.username == uname) = true
  · rw [if_pos hany]
    refine List.mem_map.mpr ⟨v, hv, ?_⟩
    rw [if_neg (by simpa using hne)]
  · rw [if_neg hany]
    exact List.mem_append_left _ hv

/-! ### Bounds and totality of `parse_time` -/

lemma digitVal_le {c : Char} (h : isDigitChar c = true) : digitVal c ≤ 9 := by
  unfold isDigitChar at h
  simp only [Bool.and_eq_true, decide_eq_true_eq] at h
  unfold digitVal
  omega

lemma parseMinutes_le : ∀ (l : List Char) (m : Nat), parseMinutes l = some m → m ≤ 59 := by
  intro l m h
  match l, h with
  | [m1], h =>
    rw [parseMinutes] at h
    split at h
    · have hd : isDigitChar m1 = true := by assumption
      obtain rfl : digitVal m1 = m := Option.some.inj h
      exact Nat.le_trans (digitVal_le hd) (by omega)
    · cases h
  | [m1, m2], h =>
    rw [parseMinutes] at h
    split at h
    · rename_i hc
      simp only [Bool.and_eq_true, decide_eq_true_eq] at hc
      obtain rfl : digitVal m1 * 10 + digitVal m2 = m := Option.some.inj h
      have h2 := digitVal_le hc.2
      unfold digitVal at h2 ⊢
      omega
    · cases h
  | [], h => cases h
  | _ :: _ :: _ :: _, h => cases h

lemma parseMinutes_digits :
    ∀ (l : List Char) (m : Nat), parseMinutes l = some m →
      ∀ c ∈ l, isDigitChar c = true := by
  intro l m h
  match l, h with
  | [m1], h =>
    rw [parseMinutes] at h
    split at h
    · rename_i hd
      intro c hc
      rcases List.mem_singleton.mp hc with rfl
      exact hd
    · cases h
  | [m1, m2], h =>
    rw [parseMinutes] at h
    split at h
    · rename_i hc
      simp only [Bool.and_eq_true, decide_eq_true_eq] at hc
      intro c hmem
      rcases List.mem_cons.mp hmem with rfl | hmem
      · unfold isDigitChar
        simp only [Bool.and_eq_true, decide_eq_true_eq]
        omega
      · rcases List.mem_singleton.mp hmem with rfl
        exact hc.2
    · cases h
  | [], h => cases h
  | _ :: _ :: _ :: _, h => cases h

lemma parseHour2_le {c1 c2 : Char} {h2 : Nat} (h : parseHour2 c1 c2 = some h2) :
    h2 ≤ 23 := by
  unfold parseHour2 at h
  split at h
  · rename_i hc
    simp only [Bool.and_eq_true, decide_eq_true_eq] at hc
    obtain rfl : 20 + digitVal c2 = h2 := Option.some.inj h
    unfold digitVal
    omega
  · split at h
    · rename_i hc
      simp only [Bool.and_eq_true, Bool.or_eq_true, decide_eq_true_eq] at hc
      obtain rfl : digitVal c1 * 10 + digitVal c2 = h2 := Option.some.inj h
      have hb := digitVal_le hc.2
      have h1 : digitVal c1 ≤ 1 := by
        rcases hc.1 with h | h <;> (rw [h]; decide)
      omega
    · cases h

lemma parseHour2_digits {c1 c2 : Char} {h2 : Nat} (h : parseHour2 c1 c2 = some h2) :
    isDigitChar c1 = true ∧ isDigitChar c2 = true := by
  unfold parseHour2 at h
  split at h
  · rename_i hc
    simp only [Bool.and_eq_true, decide_eq_true_eq] at hc
    constructor
    · rw [hc.1]; decide
    · unfold isDigitChar
      simp only [Bool.and_eq_true, decide_eq_true_eq]
      omega
  · split at h
    · rename_i hc
      simp only [Bool.and_eq_true, Bool.or_eq_true, decide_eq_true_eq] at hc
      refine ⟨?_, hc.2⟩
      rcases hc.1 with h | h <;> (rw [h]; decide)
    · cases h

lemma parseHM_le : ∀ (l : List Char) (t : Nat), parseHM l = some t → t ≤ 1439 := by
  intro l t h
  cases l with
  | nil => simp [parseHM] at h
  | cons c1 l1 =>
    cases l1 with
    | nil => simp [parseHM] at h
    | cons c2 rest =>
      simp only [parseHM] at h
      by_cases hc2 : c2 = ':'
      · rw [if_pos hc2] at h
        split at h
        · rename_i hd
          obtain ⟨m, hm, rfl⟩ := Option.map_eq_some'.mp h
          have := digitVal_le hd
          have := parseMinutes_le rest m hm
          omega
        · cases h
      · rw [if_neg hc2] at h
        cases rest with
        | nil => cases h
        | cons c3 ms =>
          replace h : (if c3 = ':' then
              (parseHour2 c1 c2).bind
                (fun hh => (parseMinutes ms).map (fun m => hh * 60 + m))
            else none) = some t := h
          by_cases hc3 : c3 = ':'
          · rw [if_pos hc3] at h
            obtain ⟨hr, hh, hmap⟩ := Option.bind_eq_some.mp h
            obtain ⟨m, hm, rfl⟩ := Option.map_eq_some'.mp hmap
            have := parseHour2_le hh
            have := parseMinutes_le ms m hm
            omega
          · rw [if_neg hc3] at h
            cases h

/-- Every character of a string accepted by the `%H:%M` pattern is a
digit or the colon. -/
lemma parseHM_chars :
    ∀ (l : List Char) (t : Nat), parseHM l = some t →
      ∀ c ∈ l, isDigitChar c = true ∨ c = ':' := by
  intro l t h
  cases l with
  | nil => simp [parseHM] at h
  | cons c1 l1 =>
    cases l1 with
    | nil => simp [parseHM] at h
    | cons c2 rest =>
      simp only [parseHM] at h
      by_cases hc2 : c2 = ':'
      · rw [if_pos hc2] at h
        split at h
        · rename_i hd
          obtain ⟨m, hm, _⟩ := Option.map_eq_some'.mp h
          intro c hmem
          rcases List.mem_cons.mp hmem with rfl | hmem
          · exact Or.inl hd
          · rcases List.mem_cons.mp hmem with rfl | hmem
            · exact Or.inr hc2
            · exact Or.inl (parseMinutes_digits rest m hm c hmem)
        · cases h
      · rw [if_neg hc2] at h
        cases rest with
        | nil => cases h
        | cons c3 ms =>
          replace h : (if c3 = ':' then
              (parseHour2 c1 c2).bind
                (fun hh => (parseMinutes ms).map (fun m => hh * 60 + m))
            else none) = some t := h
          by_cases hc3 : c3 = ':'
          · rw [if_pos hc3] at h
            obtain ⟨hr, hh, hmap⟩ := Option.bind_eq_some.mp h
            obtain ⟨m, hm, _⟩ := Option.map_eq_some'.mp hmap
            obtain ⟨hd1, hd2⟩ := parseHour2_digits hh
            intro c hmem
            rcases List.mem_cons.mp hmem with rfl | hmem
            · exact Or.inl hd1
            · rcases List.mem_cons.mp hmem with rfl | hmem
              · exact Or.inl hd2
              · rcases List.mem_cons.mp hmem with rfl | hmem
                · exact Or.inr hc3
                · exact Or.inl (parseMinutes_digits ms m hm c hmem)
          · rw [if_neg hc3] at h
            cases h

/-- The codes of the reconciled output, in order: the first-occurrence
order of the `finalTable` codes. -/
lemma reconcile_codes (legend : List (String × LegendEntry))
    (mt : List (String × List (List String))) :
    (reconcile legend mt).map (fun s => s.code) =
      firstOccAux [] ((matchLoop legend (gridEntries mt) []).map (fun r => r.code)) := by
  simp only [reconcile, groupResult, List.map_map]
  exact List.map_id' _

/-! ## Claim C1 -/

/-- **C1, claim as stated is false**: a scrape invocation that fails at
login (here: the wrong-password marker is shown and the success menu is
absent) returns the plain empty course list — the very value a
successful scrape of an empty timetable returns — not a classified
failure value.  The embedding's result type mirrors the source, which
has only `return`ed lists and raised exceptions. -/
theorem c1_counterexample :
    pageWrong.wrongPwdPresent = true ∧ pageWrong.menuPresent = false ∧
    extract_student_info pageWrong = ScrapeResult.courses [] ∧
    pageEmptyOk.menuPresent = true ∧
    extract_student_info pageEmptyOk = ScrapeResult.courses [] := by
  decide

/-- **C1, amended**: when login fails (success marker absent), the
scrape returns the empty course list whether or not the wrong-password
marker is present; any exception propagates to the caller unclassified;
and neither the wrong-password marker nor the grid-wait timeout affects
the returned value (they only change log output). -/
theorem c1_amended :
    (∀ page : PageModel, page.raises = false → page.menuPresent = false →
      extract_student_info page = ScrapeResult.courses []) ∧
    (∀ page : PageModel, page.raises = true →
      extract_student_info page = ScrapeResult.exn) ∧
    (∀ (r m w₁ w₂ t₁ t₂ : Bool) (lr : List (List String)) (gr : List GridRowIn),
      extract_student_info ⟨r, m, w₁, t₁, lr, gr⟩ =
        extract_student_info ⟨r, m, w₂, t₂, lr, gr⟩) := by
  refine ⟨?_, ?_, ?_⟩
  · intro page h1 h2
    simp [extract_student_info, h1, h2]
  · intro page h1
    simp [extract_student_info, h1]
  · intro r m w₁ w₂ t₁ t₂ lr gr
    rfl

/-- Witness for `c1_amended` at the wrong-password page. -/
theorem c1_witness :
    pageWrong.raises = false ∧ pageWrong.menuPresent = false ∧
    extract_student_info pageWrong = ScrapeResult.courses [] :=
  ⟨rfl, rfl, c1_amended.1 pageWrong rfl rfl⟩

/-! ## Claim C2 -/

/-- **C2, claim as stated is false**: on a wrong-credentials page the
endpoint answers `success []` (no `WrongPassword` classification), and
it *does* write to the per-user record: the stored schedule `[subj1]`
is overwritten with `[]` and `last_updated` jumps from `5` to `99`. -/
theorem c2_counterexample :
    pageWrong.wrongPwdPresent = true ∧
    getUser db0 "u" = some ⟨"u", some "tok", [subj1], 5⟩ ∧
    (api_login "h" [] db0 "u" pageWrong 99).2 = ApiResp.success [] ∧
    getUser (api_login "h" [] db0 "u" pageWrong 99).1 "u" =
      some ⟨"u", some "tok", [], 99⟩ ∧
    ([] : List ESubject) ≠ [subj1] ∧ (99 : Nat) ≠ 5 := by
  decide

/-- **C2, amended**: on any login failure (wrong-password marker shown
or not) the endpoint answers `success []` and persists an *empty*
schedule for the user — overwriting any stored schedule, setting
`last_updated` to the current time, creating the record if absent — and
leaves the notification token unchanged. -/
theorem c2_amended :
    ∀ (serverURL : String) (files : List String) (db : List UserRec)
      (uname : String) (page : PageModel) (now : Nat),
      page.raises = false → page.menuPresent = false →
      (api_login serverURL files db uname page now).2 = ApiResp.success [] ∧
      getUser (api_login serverURL files db uname page now).1 uname =
        some ⟨uname, (getUser db uname).bind (fun u => u.line_token), [], now⟩ := by
  intro serverURL files db uname page now h1 h2
  have hex : extract_student_info page = ScrapeResult.courses [] := by
    simp [extract_student_info, h1, h2]
  have hred : api_login serverURL files db uname page now =
      (upsertSchedule db uname [] now, ApiResp.success []) := by
    simp [api_login, hex, enrich]
  rw [hred]
  refine ⟨rfl, ?_⟩
  cases hdb : getUser db uname with
  | some u =>
    rw [getUser_upsertSchedule_some hdb [] now]
    simp
  | none =>
    rw [(getUser_upsertSchedule_none hdb [] now).2]
    simp

/-- Witness for `c2_amended` at the wrong-password page over `db0`. -/
theorem c2_witness :
    (api_login "h" [] db0 "u" pageWrong 99).2 = ApiResp.success [] ∧
    getUser (api_login "h" [] db0 "u" pageWrong 99).1 "u" =
      some ⟨"u", (getUser db0 "u").bind (fun u => u.line_token), [], 99⟩ :=
  c2_amended "h" [] db0 "u" pageWrong 99 rfl rfl

/-! ## Claim C9 -/

/-- **C9**: a successful schedule update of an existing user record
wholly replaces the stored schedule with the freshly scraped-and-
enriched one (whatever was stored before), sets `last_updated` to the
current time, leaves the notification token exactly as it was, and
leaves every other user's record in the database. -/
theorem c9_schedule_update_frame :
    ∀ (serverURL : String) (files : List String) (db : List UserRec)
      (uname : String) (page : PageModel) (now : Nat) (u : UserRec),
      getUser db uname = some u → page.raises = false → page.menuPresent = true →
      getUser (api_login serverURL files db uname page now).1 uname =
        some ⟨uname, u.line_token,
          enrich serverURL files
            (reconcile (buildLegend page.legendRows) (buildMainTable page.gridRows)),
          now⟩ ∧
      (∀ v ∈ db, v.username ≠ uname →
        v ∈ (api_login serverURL files db uname page now).1) := by
  intro serverURL files db uname page now u hu h1 h2
  have hex : extract_student_info page = ScrapeResult.courses
      (reconcile (buildLegend page.legendRows) (buildMainTable page.gridRows)) := by
    simp [extract_student_info, h1, h2]
  have hred : api_login serverURL files db uname page now =
      (upsertSchedule db uname
        (enrich serverURL files
          (reconcile (buildLegend page.legendRows) (buildMainTable page.gridRows))) now,
       ApiResp.success
        (enrich serverURL files
          (reconcile (buildLegend page.legendRows) (buildMainTable page.gridRows)))) := by
    simp [api_login, hex]
  rw [hred]
  exact ⟨getUser_upsertSchedule_some hu _ now, upsertSchedule_frame db uname _ now⟩

/-- Witness for `c9_schedule_update_frame`: user `u` of `db0` keeps the
token `"tok"` while the schedule is replaced by the Scenario-A scrape. -/
theorem c9_witness :
    getUser (api_login "h" [] db0 "u" pageOkA 7).1 "u" =
      some ⟨"u", some "tok",
        enrich "h" []
          (reconcile (buildLegend pageOkA.legendRows) (buildMainTable pageOkA.gridRows)),
        7⟩ :=
  (c9_schedule_update_frame "h" [] db0 "u" pageOkA 7 ⟨"u", some "tok", [subj1], 5⟩
    (by decide) rfl rfl).1

/-! ## Claim C3 -/

lemma countSessions_reconcile (legend : List (String × LegendEntry))
    (mt : List (String × List (List String))) (k : String) :
    countSessions (reconcile legend mt) k =
      ((matchLoop legend (gridEntries mt) []).map keyOfRow).count k := by
  unfold countSessions reconcile
  exact (subjectKeys_groupResult legend _).count_eq k

/-- **C3, claim as stated is false**: two grid entries share the dedup
key `CS101|จันทร์|09:00-12:00`, yet with a legend missing `CS101` the
reconciled output contains *zero* sessions for that key, not exactly
one (the inner join discards the deduplicated entry silently). -/
theorem c3_counterexample :
    (gridEntries mtB).map keyOfEntry =
      ["CS101|จันทร์|09:00-12:00", "CS101|จันทร์|09:00-12:00"] ∧
    countSessions (reconcile [] mtB) "CS101|จันทร์|09:00-12:00" = 0 := by
  decide

/-- Every dedup-kept entry comes from the scanned entry list. -/
lemma dedupKeys_subset :
    ∀ (entries : List Entry) (seen : List String),
      ∀ e ∈ dedupKeys entries seen, e ∈ entries := by
  intro entries
  induction entries with
  | nil => intro seen e he; cases he
  | cons x rest ih =>
    intro seen e he
    by_cases hk : keyOfEntry x ∈ seen
    · rw [dedupKeys, if_pos hk] at he
      exact List.mem_cons_of_mem _ (ih seen e he)
    · rw [dedupKeys, if_neg hk] at he
      rcases List.mem_cons.mp he with h | h
      · exact h ▸ List.mem_cons_self _ _
      · exact List.mem_cons_of_mem _ (ih _ e h)

/-- Every dedup-kept entry is the *first* entry of the scanned list
bearing its key: keys already in `seen` are never kept, and a kept key
blocks every later entry with the same key. -/
lemma dedupKeys_find_self :
    ∀ (entries : List Entry) (seen : List String),
      ∀ e ∈ dedupKeys entries seen,
        entries.find? (fun x => keyOfEntry x == keyOfEntry e) = some e := by
  intro entries
  induction entries with
  | nil => intro seen e he; cases he
  | cons x rest ih =>
    intro seen e he
    by_cases hk : keyOfEntry x ∈ seen
    · rw [dedupKeys, if_pos hk] at he
      have hne : keyOfEntry x ≠ keyOfEntry e := by
        intro heq
        exact dedupKeys_key_not_seen rest seen e he (heq ▸ hk)
      rw [List.find?_cons, beq_eq_false_iff_ne.mpr hne]
      exact ih seen e he
    · rw [dedupKeys, if_neg hk] at he
      rcases List.mem_cons.mp he with h | h
      · subst h
        rw [List.find?_cons, beq_iff_eq.mpr rfl]
      · have hne : keyOfEntry x ≠ keyOfEntry e := by
          intro heq
          exact dedupKeys_key_not_seen rest (keyOfEntry x :: seen) e h
            (heq ▸ List.mem_cons_self _ _)
        rw [List.find?_cons, beq_eq_false_iff_ne.mpr hne]
        exact ih _ e h

/-- **C3, amended**: the output never contains two sessions with the
same computed key string; it contains exactly one session for key `k`
precisely when the first grid entry whose key is `k` has its code in
the legend — zero sessions when that first entry's code is absent from
the legend (the inner join discards the deduplicated entry) and zero
when no entry bears the key; and the `seen` set is created empty at
each invocation (`reconcile` is a pure function of the legend and grid
of the current scrape). -/
theorem c3_amended :
    (∀ (legend : List (String × LegendEntry))
       (mt : List (String × List (List String))) (k : String),
       countSessions (reconcile legend mt) k ≤ 1) ∧
    (∀ (legend : List (String × LegendEntry))
       (mt : List (String × List (List String))) (k : String) (e : Entry),
       (gridEntries mt).find? (fun x => keyOfEntry x == k) = some e →
       (dictLookup legend e.code).isSome = true →
       countSessions (reconcile legend mt) k = 1) ∧
    (∀ (legend : List (String × LegendEntry))
       (mt : List (String × List (List String))) (k : String) (e : Entry),
       (gridEntries mt).find? (fun x => keyOfEntry x == k) = some e →
       (dictLookup legend e.code).isSome = false →
       countSessions (reconcile legend mt) k = 0) ∧
    (∀ (legend : List (String × LegendEntry))
       (mt : List (String × List (List String))) (k : String),
       (gridEntries mt).find? (fun x => keyOfEntry x == k) = none →
       countSessions (reconcile legend mt) k = 0) ∧
    (∀ (legend : List (String × LegendEntry))
       (mt : List (String × List (List String))),
       reconcile legend mt =
         groupResult legend (matchLoop legend (gridEntries mt) [])) := by
  refine ⟨?_, ?_, ?_, ?_, fun _ _ => rfl⟩
  · intro legend mt k
    rw [countSessions_reconcile, matchLoop_eq_filterMap, map_keyOfRow_filterMap]
    have hnd : (((dedupKeys (gridEntries mt) []).filter
        (fun e => (dictLookup legend e.code).isSome)).map keyOfEntry).Nodup :=
      ((List.filter_sublist _).map keyOfEntry).nodup (dedupKeys_keys_nodup _ _)
    exact List.nodup_iff_count_le_one.mp hnd k
  · intro legend mt k e hfind hsome
    rw [countSessions_reconcile, matchLoop_eq_filterMap, map_keyOfRow_filterMap]
    have hmem_d : e ∈ dedupKeys (gridEntries mt) [] :=
      dedupKeys_find_mem _ _ k e hfind (by simp)
    have hkey : keyOfEntry e = k := by
      have := List.find?_some hfind
      simpa using this
    have hmem : k ∈ ((dedupKeys (gridEntries mt) []).filter
        (fun x => (dictLookup legend x.code).isSome)).map keyOfEntry :=
      List.mem_map.mpr ⟨e, List.mem_filter.mpr ⟨hmem_d, hsome⟩, hkey⟩
    have hnd : (((dedupKeys (gridEntries mt) []).filter
        (fun x => (dictLookup legend x.code).isSome)).map keyOfEntry).Nodup :=
      ((List.filter_sublist _).map keyOfEntry).nodup (dedupKeys_keys_nodup _ _)
    exact List.count_eq_one_of_mem hnd hmem
  · intro legend mt k e hfind hsome
    rw [countSessions_reconcile, matchLoop_eq_filterMap, map_keyOfRow_filterMap]
    rw [List.count_eq_zero]
    intro hmem
    obtain ⟨e', he', hkey⟩ := List.mem_map.mp hmem
    obtain ⟨hed, hp⟩ := List.mem_filter.mp he'
    have hself := dedupKeys_find_self (gridEntries mt) [] e' hed
    rw [hkey, hfind] at hself
    obtain rfl : e = e' := Option.some.inj hself
    rw [hsome] at hp
    cases hp
  · intro legend mt k hfind
    rw [countSessions_reconcile, matchLoop_eq_filterMap, map_keyOfRow_filterMap]
    rw [List.count_eq_zero]
    intro hmem
    obtain ⟨e', he', hkey⟩ := List.mem_map.mp hmem
    have hed : e' ∈ dedupKeys (gridEntries mt) [] := (List.mem_filter.mp he').1
    have hent : e' ∈ gridEntries mt := dedupKeys_subset _ _ e' hed
    exact List.find?_eq_none.mp hfind e' hent (by simpa using hkey)

/-- Witness for `c3_amended`: Scenario B (the identical cell in two
adjacent columns, code present in the legend) yields exactly one
session, and the same grid against an empty legend yields zero. -/
theorem c3_witness :
    countSessions (reconcile legA mtB) "CS101|จันทร์|09:00-12:00" = 1 ∧
    countSessions (reconcile [] mtB) "CS101|จันทร์|09:00-12:00" = 0 :=
  ⟨c3_amended.2.1 legA mtB "CS101|จันทร์|09:00-12:00"
    ⟨"จันทร์", "CS101", "S-101", "09:00-12:00"⟩ (by decide) (by decide),
   c3_amended.2.2.1 [] mtB "CS101|จันทร์|09:00-12:00"
    ⟨"จันทร์", "CS101", "S-101", "09:00-12:00"⟩ (by decide) (by decide)⟩

/-! ## Claim C4 -/

/-- **C4**: a grid entry whose course code has no legend counterpart is
discarded silently — the code appears as no course of the reconciled
output (the embedding is total, so no error can be raised). -/
theorem c4_inner_join :
    ∀ (legend : List (String × LegendEntry))
      (mt : List (String × List (List String))) (c : String),
      dictLookup legend c = none →
      c ∉ (reconcile legend mt).map (fun s => s.code) := by
  intro legend mt c hnone hmem
  rw [reconcile_codes] at hmem
  have h1 := mem_of_mem_firstOccAux _ _ _ hmem
  obtain ⟨r, hr, hrc⟩ := List.mem_map.mp h1
  rw [matchLoop_eq_filterMap] at hr
  obtain ⟨L, hL, _, _⟩ := mem_filterMap_toRow hr
  rw [hrc, hnone] at hL
  cases hL

/-- Witness for `c4_inner_join` at Scenario C: `XX999` is absent from
the legend and absent from the output, while `CS101` survives. -/
theorem c4_witness :
    (reconcile legA mtC).map (fun s => s.code) = ["CS101"] ∧
    "XX999" ∉ (reconcile legA mtC).map (fun s => s.code) :=
  ⟨by decide, c4_inner_join legA mtC "XX999" (by decide)⟩

/-! ## Claim C5 -/

lemma map_code_filter_comm (legend : List (String × LegendEntry)) :
    ∀ l : List Entry,
      (l.filter (fun e => (dictLookup legend e.code).isSome)).map (fun e => e.code) =
        (l.map (fun e => e.code)).filter (fun c => (dictLookup legend c).isSome) := by
  intro l
  induction l with
  | nil => rfl
  | cons e rest ih =>
    rw [List.filter_cons, List.map_cons, List.filter_cons]
    cases hL : (dictLookup legend e.code).isSome with
    | true => simp [hL, ih]
    | false => simp [hL, ih]

/-- **C5, claim as stated is false**: with the pipe-containing code
`X|d1`, the first `X` entry's key string collides with the earlier
`X|d1` entry's key, the `X` entry is deduplicated away, and the output
order becomes `[Y, X]` although the first-encounter order of the
distinct legend codes in scan order is `[X, Y]`. -/
theorem c5_counterexample :
    (reconcile legP mtP).map (fun s => s.code) = ["Y", "X"] ∧
    firstOccAux [] (((gridEntries mtP).map (fun e => e.code)).filter
      (fun c => (dictLookup legP c).isSome)) = ["X", "Y"] ∧
    (["Y", "X"] : List String) ≠ ["X", "Y"] := by
  decide

/-- **C5, amended**: provided no decoded course code contains the `|`
key-separator character, the course order of the output equals the
order in which distinct legend codes are first encountered scanning
day-rows top-to-bottom and columns left-to-right; and every output
course carries `name_en`/`name_th` taken from the legend map entry of
its code (the latter needs no proviso). -/
theorem c5_amended :
    ∀ (legend : List (String × LegendEntry))
      (mt : List (String × List (List String))),
      ((∀ e ∈ gridEntries mt, noPipe e.code) →
        (reconcile legend mt).map (fun s => s.code) =
          firstOccAux [] (((gridEntries mt).map (fun e => e.code)).filter
            (fun c => (dictLookup legend c).isSome))) ∧
      (∀ subj ∈ reconcile legend mt, ∃ L, dictLookup legend subj.code = some L ∧
        subj.name_en = L.name_en ∧ subj.name_th = L.name_th) := by
  intro legend mt
  constructor
  · intro hnp
    rw [reconcile_codes, matchLoop_eq_filterMap, map_code_filterMap,
        map_code_filter_comm, firstOccAux_filter,
        firstOcc_code_dedupKeys (gridEntries mt) [] [] hnp (by simp),
        ← firstOccAux_filter]
  · intro subj hsubj
    have hmem : subj.code ∈ (reconcile legend mt).map (fun s => s.code) :=
      List.mem_map_of_mem _ hsubj
    rw [reconcile_codes] at hmem
    have h1 := mem_of_mem_firstOccAux _ _ _ hmem
    obtain ⟨r, hr, hrc⟩ := List.mem_map.mp h1
    rw [matchLoop_eq_filterMap] at hr
    obtain ⟨L, hL, _, _⟩ := mem_filterMap_toRow hr
    rw [hrc] at hL
    refine ⟨L, hL, ?_, ?_⟩
    · have hc : subj ∈ reconcile legend mt := hsubj
      unfold reconcile groupResult at hc
      obtain ⟨c, _, rfl⟩ := List.mem_map.mp hc
      simp only at hL ⊢
      rw [hL]
      rfl
    · have hc : subj ∈ reconcile legend mt := hsubj
      unfold reconcile groupResult at hc
      obtain ⟨c, _, rfl⟩ := List.mem_map.mp hc
      simp only at hL ⊢
      rw [hL]
      rfl

/-- Witness for `c5_amended` at Scenario C (pipe-free codes): the
output order is the first-encounter order of the legend codes. -/
theorem c5_witness :
    (reconcile legA mtC).map (fun s => s.code) =
      firstOccAux [] (((gridEntries mtC).map (fun e => e.code)).filter
        (fun c => (dictLookup legA c).isSome)) :=
  (c5_amended legA mtC).1 (by decide)

/-! ## Claim C6 -/

/-- The building half of `get_room_details`, as a chain of cases on the
prefix — definitionally equal to the source's `if`/`elif` chain. -/
lemma get_room_details_building (serverURL : String) (files : List String)
    (room_code : String) :
    (get_room_details serverURL files room_code).1 =
      (if roomPrefix room_code = "S" then "ตึก 100 ปี (สมเด็จพระเทพฯ)"
       else if roomPrefix room_code = "P" then "อาคารวิทยาศาสตร์ (P)"
       else if roomPrefix room_code = "L" then "อาคารเรียนรวม (L)"
       else if roomPrefix room_code = "ARR" ∨
           pyContains (pyUpper (pyStrip room_code)) "ONLINE" = true then
         "เรียนออนไลน์จ้า"
       else if roomPrefix room_code = "QS2" then "อาคารภูมิราชนครินทร์ (QS2)"
       else if roomPrefix room_code = "KB" then "อาคารเคบี (KB)"
       else if roomPrefix room_code = "SC" then "อาคารวิทยาศาสตร์ (SC)"
       else if roomPrefix room_code = "EN" then "คณะวิศวกรรมศาสตร์"
       else "อาคาร " ++ roomPrefix room_code) := rfl

/-- **C6, claim as stated is false**: `S-ONLINE` contains the online
marker, yet the chain checks the `S` prefix *first* and returns the `S`
building name, not the online-class label. -/
theorem c6_counterexample :
    pyContains (pyUpper "S-ONLINE") "ONLINE" = true ∧
    (get_room_details "h" [] "S-ONLINE").1 = "ตึก 100 ปี (สมเด็จพระเทพฯ)" ∧
    ("ตึก 100 ปี (สมเด็จพระเทพฯ)" : String) ≠ "เรียนออนไลน์จ้า" := by
  decide

/-- **C6, amended**: the chain applies, in order, (a) the `S`, `P`, `L`
prefix rules, (b) *then* the arranged/online special case, (c) then the
remaining known prefixes `QS2`, `KB`, `SC`, `EN`, and (d) the generic
`อาคาร <prefix>` fallback — so a room code containing the online marker
resolves to the online label only when its prefix is not `S`, `P` or
`L`. -/
theorem c6_amended :
    ∀ (serverURL : String) (files : List String) (room_code : String),
      (roomPrefix room_code = "S" →
        (get_room_details serverURL files room_code).1 = "ตึก 100 ปี (สมเด็จพระเทพฯ)") ∧
      (roomPrefix room_code = "P" →
        (get_room_details serverURL files room_code).1 = "อาคารวิทยาศาสตร์ (P)") ∧
      (roomPrefix room_code = "L" →
        (get_room_details serverURL files room_code).1 = "อาคารเรียนรวม (L)") ∧
      (roomPrefix room_code ≠ "S" → roomPrefix room_code ≠ "P" →
        roomPrefix room_code ≠ "L" →
        (roomPrefix room_code = "ARR" ∨
          pyContains (pyUpper (pyStrip room_code)) "ONLINE" = true) →
        (get_room_details serverURL files room_code).1 = "เรียนออนไลน์จ้า") ∧
      (roomPrefix room_code ∉
          (["S", "P", "L", "ARR", "QS2", "KB", "SC", "EN"] : List String) →
        pyContains (pyUpper (pyStrip room_code)) "ONLINE" = false →
        (get_room_details serverURL files room_code).1 =
          "อาคาร " ++ roomPrefix room_code) := by
  intro serverURL files room_code
  rw [get_room_details_building serverURL files room_code]
  refine ⟨?_, ?_, ?_, ?_, ?_⟩
  · intro h
    rw [if_pos h]
  · intro h
    have hS : roomPrefix room_code ≠ "S" := by rw [h]; decide
    rw [if_neg hS, if_pos h]
  · intro h
    have hS : roomPrefix room_code ≠ "S" := by rw [h]; decide
    have hP : roomPrefix room_code ≠ "P" := by rw [h]; decide
    rw [if_neg hS, if_neg hP, if_pos h]
  · intro hS hP hL h
    rw [if_neg hS, if_neg hP, if_neg hL, if_pos h]
  · intro hmem honline
    simp only [List.mem_cons, List.mem_singleton, not_or] at hmem
    obtain ⟨hS, hP, hL, hARR, hQS2, hKB, hSC, hEN, -⟩ := hmem
    have honl : ¬(roomPrefix room_code = "ARR" ∨
        pyContains (pyUpper (pyStrip room_code)) "ONLINE" = true) := by
      rintro (h | h)
      · exact hARR h
      · rw [honline] at h
        cases h
    rw [if_neg hS, if_neg hP, if_neg hL, if_neg honl, if_neg hQS2, if_neg hKB,
        if_neg hSC, if_neg hEN]

/-- Witness for `c6_amended`: the three rule classes at concrete codes
(`S-ONLINE` resolves by prefix, `ARR` by the special case, `Z-999` by
the generic fallback). -/
theorem c6_witness :
    (get_room_details "h" [] "S-ONLINE").1 = "ตึก 100 ปี (สมเด็จพระเทพฯ)" ∧
    (get_room_details "h" [] "ARR").1 = "เรียนออนไลน์จ้า" ∧
    (get_room_details "h" [] "Z-999").1 = "อาคาร " ++ roomPrefix "Z-999" :=
  ⟨(c6_amended "h" [] "S-ONLINE").1 (by decide),
   (c6_amended "h" [] "ARR").2.2.2.1 (by decide) (by decide) (by decide)
     (Or.inl (by decide)),
   (c6_amended "h" [] "Z-999").2.2.2.2 (by decide) (by decide)⟩

/-! ## Claim C7 -/

/-- **C7, claim as stated is false**: for the index-3 token `09(00`
(which has no surrounding parentheses), the decoding removes the
*interior* parenthesis — the source removes every `(` and `)` — while
"surrounding parentheses stripped" would leave the token unchanged. -/
theorem c7_counterexample :
    decodeCol "d" ["C", "g", "r", "09(00"] = some ⟨"d", "C", "r", "0900"⟩ ∧
    stripSurroundingSpec "09(00" = "09(00" ∧
    ("0900" : String) ≠ "09(00" := by
  decide

/-- **C7, amended**: the decoding of a non-empty token list is
positional — index 0 is the code, index 2 the room (defaulting to `-`),
index 3 the time with *every* parenthesis character removed (defaulting
to `-`); removing every parenthesis equals stripping the surrounding
pair on a well-formed `(range)` token; index 1 never influences the
decoded entry, and the reconciled output depends on the grid only
through the decoded entries. -/
theorem c7_amended :
    (∀ (day : String) (col : List String), col ≠ [] →
      gridEntries [(day, [col])] =
        [⟨day, col.headD "",
          if col.length > 2 then col.getD 2 "" else "-",
          if col.length > 3 then stripParens (col.getD 3 "") else "-"⟩]) ∧
    (∀ (day c0 v w : String) (rest : List String),
      decodeCol day (c0 :: v :: rest) = decodeCol day (c0 :: w :: rest)) ∧
    (∀ inner : String, (∀ c ∈ inner.data, c ≠ '(' ∧ c ≠ ')') →
      stripParens ("(" ++ inner ++ ")") = inner) ∧
    (∀ (legend : List (String × LegendEntry))
       (mt₁ mt₂ : List (String × List (List String))),
      gridEntries mt₁ = gridEntries mt₂ →
        reconcile legend mt₁ = reconcile legend mt₂) := by
  refine ⟨?_, ?_, ?_, ?_⟩
  · intro day col h
    have hl : ¬(col.length < 1) := by
      cases col with
      | nil => exact absurd rfl h
      | cons a l => simp
    simp [gridEntries, decodeCol, hl]
  · intro day c0 v w rest
    simp [decodeCol]
  · intro inner h
    have h1 : inner.data.filter (fun c => c ≠ '(' && c ≠ ')') = inner.data :=
      List.filter_eq_self.mpr (fun c hc => by
        obtain ⟨h1, h2⟩ := h c hc
        simp [h1, h2])
    apply String.ext
    have hop : ("(" : String).data = ['('] := rfl
    have hcl : (")" : String).data = [')'] := rfl
    show (("(" ++ (inner ++ ")")).data).filter (fun c => c ≠ '(' && c ≠ ')') =
      inner.data
    rw [String.data_append, String.data_append, hop, hcl]
    simp only [List.filter_append, List.filter_cons, List.filter_nil]
    simp [h1]
    exact h
  · intro legend mt₁ mt₂ h
    unfold reconcile
    rw [h]

/-- Witness for `c7_amended` at the Scenario-A cell. -/
theorem c7_witness :
    gridEntries [("จันทร์", [["CS101", "G1", "S-101", "(09:00-12:00)"]])] =
      [⟨"จันทร์", "CS101", "S-101", "09:00-12:00"⟩] ∧
    stripParens ("(" ++ "09:00-12:00" ++ ")") = "09:00-12:00" :=
  ⟨(c7_amended.1 "จันทร์" ["CS101", "G1", "S-101", "(09:00-12:00)"]
      (by decide)).trans (by decide),
   c7_amended.2.2.1 "09:00-12:00" (by decide)⟩

/-! ## Claim C8 -/

/-- **C8**: room code `Z-999` with no matching asset under any probed
extension resolves to the generic fallback `อาคาร Z` ("Building Z")
with an empty image URL; in general, whenever no file
`<room_code><ext>` exists for any extension in the probe order
`.jpg`, `.png`, `.jpeg`, the image URL is the empty string. -/
theorem c8_fallback_and_noimage :
    (∀ (serverURL : String) (files : List String),
      (∀ ext ∈ valid_extensions, files.contains ("Z-999" ++ ext) = false) →
      get_room_details serverURL files "Z-999" = ("อาคาร Z", "")) ∧
    (∀ (serverURL : String) (files : List String) (room_code : String),
      (∀ ext ∈ valid_extensions, files.contains (pyStrip room_code ++ ext) = false) →
      (get_room_details serverURL files room_code).2 = "") := by
  have himg : ∀ (serverURL : String) (files : List String) (room_code : String),
      (∀ ext ∈ valid_extensions, files.contains (pyStrip room_code ++ ext) = false) →
      (get_room_details serverURL files room_code).2 = "" := by
    intro serverURL files room_code h
    have hfind : valid_extensions.find?
        (fun ext => files.contains (pyStrip room_code ++ ext)) = none :=
      List.find?_eq_none.mpr (fun x hx => by rw [h x hx]; simp)
    show (match valid_extensions.find?
          (fun ext => files.contains (pyStrip room_code ++ ext)) with
        | some ext => serverURL ++ "/static/maps/" ++ pyStrip room_code ++ ext
        | none => "") = ""
    rw [hfind]
  refine ⟨?_, himg⟩
  intro serverURL files h
  have h2 : (get_room_details serverURL files "Z-999").2 = "" := by
    refine himg serverURL files "Z-999" ?_
    intro ext hext
    have : pyStrip "Z-999" = "Z-999" := by decide
    rw [this]
    exact h ext hext
  have h1 : (get_room_details serverURL files "Z-999").1 = "อาคาร Z" := by
    rw [get_room_details_building]
    decide
  exact Prod.ext_iff.mpr ⟨h1, h2⟩

/-- Witness for `c8_fallback_and_noimage` with an empty asset
directory. -/
theorem c8_witness :
    get_room_details "h" [] "Z-999" = ("อาคาร Z", "") :=
  c8_fallback_and_noimage.1 "h" [] (by decide)

/-! ## Claim C10 -/

/-- **C10, claim as stated is false**: `9:30` is not exactly in `HH:MM`
format, yet `strptime("%H:%M")` accepts one-digit hours, so
`parse_time` maps it to `570` minutes, not to the maximal sentinel. -/
theorem c10_counterexample :
    hhmmFormatSpec "9:30" = false ∧ parse_time "9:30" = 570 ∧
    (570 : Nat) ≠ timeSentinel := by
  decide

/-- **C10, amended**: `parse_time` is total — every string maps either
to the sentinel or to a genuine minutes-of-day value at most `23:59`;
every string containing a `-` (in particular every stored
`HH:MM-HH:MM` range and the `-` placeholder) maps to the sentinel; and
a daily-digest class list all of whose times map to the sentinel is
left exactly in its stored order by the sort. -/
theorem c10_amended :
    (∀ s : String, parse_time s = timeSentinel ∨ parse_time s ≤ 1439) ∧
    (∀ s : String, '-' ∈ s.data → parse_time s = timeSentinel) ∧
    (∀ cs : List ClassInfo, (∀ c ∈ cs, parse_time c.time = timeSentinel) →
      sortClasses cs = cs) := by
  refine ⟨?_, ?_, ?_⟩
  · intro s
    unfold parse_time
    cases h : parseHM s.data with
    | none => exact Or.inl rfl
    | some t => exact Or.inr (parseHM_le s.data t h)
  · intro s hmem
    unfold parse_time
    cases h : parseHM s.data with
    | none => rfl
    | some t =>
      rcases parseHM_chars s.data t h '-' hmem with h1 | h1
      · exact absurd h1 (by decide)
      · exact absurd h1 (by decide)
  · intro cs hall
    unfold sortClasses
    apply List.mergeSort_of_sorted
    have key : ∀ cs : List ClassInfo,
        (∀ c ∈ cs, parse_time c.time = timeSentinel) →
        List.Pairwise
          (fun a b => decide (parse_time a.time ≤ parse_time b.time) = true) cs := by
      intro cs
      induction cs with
      | nil => intro _; exact List.Pairwise.nil
      | cons c rest ih =>
        intro hall
        refine List.Pairwise.cons ?_ (ih (fun x hx => hall x (List.mem_cons_of_mem _ hx)))
        intro b hb
        have h1 := hall c (List.mem_cons_self _ _)
        have h2 := hall b (List.mem_cons_of_mem _ hb)
        simp [h1, h2]
    exact key cs hall

/-- Witness for `c10_amended`: a stored time range maps to the
sentinel, and a two-class same-day list with range/placeholder times
keeps its stored order. -/
theorem c10_witness :
    parse_time "09:00-12:00" = timeSentinel ∧
    sortClasses [⟨"A", "a", "09:00-12:00", "r", "b", ""⟩,
                 ⟨"B", "b", "-", "r", "b", ""⟩] =
      [⟨"A", "a", "09:00-12:00", "r", "b", ""⟩, ⟨"B", "b", "-", "r", "b", ""⟩] :=
  ⟨c10_amended.2.1 "09:00-12:00" (by decide),
   c10_amended.2.2 _ (by decide)⟩

end TsApi
